import Mathlib

/-!
Shallow embedding of asio's single-slot cancellation signal
(src/asio/include/asio/cancellation_signal.hpp).

Memory is modelled by an allocation-counting heap: every call to
::operator new yields a fresh nonzero address, and every call to
::operator delete with a non-null pointer is recorded (the C++ standard
makes operator delete on a null pointer a no-op).  A raw memory block,
as passed between `destroy` (surrender) and `create`, is a pair
(address, capacity); address 0 plays the role of the null pointer, and a
value-initialized `std::pair<void*, std::size_t>` is (0, 0).

The type-erased record cancellation_handler<Context, Handler> is
modelled by a structure carrying its address, its stored allocated size
`size_`, the size `reqSize` of the concrete realization (C++'s
sizeof(cancellation_handler<Context, Handler>), which is at least 1),
and the stored handler and context values.  Construction failure of the
handler/context pair and failure of ::operator new are modelled by the
Boolean oracles `ctorOk` and `allocOk`.

A cancellation_signal holds the heap together with its nullable owning
record pointer `handler_`.  A cancellation_slot stores the address of a
signal's `handler_` cell (`none` models the null pointer of a
default-constructed, disconnected slot); distinct live signals have
distinct cell addresses.  Slot operations that dereference the cell act
on the pointee signal's state, passed explicitly.
-/

namespace Asio

/-- The allocation-counting heap: `allocs` records every block handed out
by ::operator new as an (address, size) pair, newest first; `frees`
records every non-null address passed to ::operator delete, newest
first.  Addresses start at 1 so that 0 is the null pointer, and are
never reused. -/
structure Heap where
  nextAddr : Nat
  allocs : List (Nat × Nat)
  frees : List Nat
deriving Repr, DecidableEq

/-- The heap before any allocation. -/
def Heap.empty : Heap := ⟨1, [], []⟩

/-- ::operator new(size): returns the updated heap and the fresh block's
address. -/
def Heap.opNew (h : Heap) (size : Nat) : Heap × Nat :=
  (⟨h.nextAddr + 1, (h.nextAddr, size) :: h.allocs, h.frees⟩, h.nextAddr)

/-- ::operator delete(addr): a no-op on the null pointer, otherwise the
address is recorded as freed. -/
def Heap.opDelete (h : Heap) (addr : Nat) : Heap :=
  if addr = 0 then h else ⟨h.nextAddr, h.allocs, addr :: h.frees⟩

/-- Failure modes of `cancellation_slot::emplace`: the assert(handler_)
precondition check, ::operator new throwing std::bad_alloc, and the
handler/context constructor throwing. -/
inductive EmplaceError where
  | assertFail
  | allocFail
  | ctorFail
deriving Repr, DecidableEq

/-- The concrete realization cancellation_handler<Context, Handler>:
it lives at `addr`, stores the allocated size of its block in `size_`,
has in-memory size `reqSize` (sizeof of the realization), and holds the
handler and context values. -/
structure cancellation_handler (C H : Type) where
  addr : Nat
  size_ : Nat
  reqSize : Nat
  handler_ : H
  context_ : C
deriving Repr, DecidableEq

/-- cancellation_handler::create(mem, handler, args...): if the
realization does not fit in the candidate block, free it and allocate a
fresh block sized exactly to the realization; then construct in place,
storing mem.second into size_; if construction throws, free the block
and propagate.  `allocOk` models ::operator new succeeding, `ctorOk`
models the handler/context constructors succeeding (constructing the
values `handler` and `ctx`). -/
def cancellation_handler.create (h : Heap) (mem : Nat × Nat) (reqSize : Nat)
    (allocOk ctorOk : Bool) (handler : H) (ctx : C) :
    Heap × Except EmplaceError (cancellation_handler C H) :=
  if reqSize > mem.2 then
    let h1 := h.opDelete mem.1
    if allocOk then
      let na := h1.opNew reqSize
      if ctorOk then
        (na.1, .ok ⟨na.2, reqSize, reqSize, handler, ctx⟩)
      else
        (na.1.opDelete na.2, .error .ctorFail)
    else
      (h1, .error .allocFail)
  else
    if ctorOk then
      (h, .ok ⟨mem.1, mem.2, reqSize, handler, ctx⟩)
    else
      (h.opDelete mem.1, .error .ctorFail)

/-- cancellation_handler::call(): invokes handler_(context_); the
invocation event is the (handler, context) pair passed to user code. -/
def cancellation_handler.call (r : cancellation_handler C H) : H × C :=
  (r.handler_, r.context_)

/-- cancellation_handler::destroy(): surrenders the record, returning
the raw block (this, size_) without freeing it. -/
def cancellation_handler.destroy (r : cancellation_handler C H) : Nat × Nat :=
  (r.addr, r.size_)

/-- cancellation_handler::context(): the reference returned by emplace
designates the context_ member of the installed record. -/
def cancellation_handler.context (r : cancellation_handler C H) : C :=
  r.context_

/-- A cancellation signal: the heap it allocates from together with its
nullable owning record pointer handler_. -/
structure cancellation_signal (C H : Type) where
  heap : Heap
  handler_ : Option (cancellation_handler C H)
deriving Repr, DecidableEq

/-- cancellation_signal(): handler_ is initialized to null. -/
def cancellation_signal.init : cancellation_signal C H := ⟨Heap.empty, none⟩

/-- cancellation_signal::emit(): if a record is installed, call it; the
second component lists the handler invocations (handler, context) the
call performs, and the signal state itself is unchanged by emit. -/
def cancellation_signal.emit (st : cancellation_signal C H) :
    cancellation_signal C H × List (H × C) :=
  match st.handler_ with
  | some r => (st, [r.call])
  | none => (st, [])

/-- ~cancellation_signal(): if a record is installed,
::operator delete(handler_->destroy().first); returns the final heap. -/
def cancellation_signal.dtor (st : cancellation_signal C H) : Heap :=
  match st.handler_ with
  | some r => st.heap.opDelete r.destroy.1
  | none => st.heap

/-- A cancellation slot: handler_ stores the address of a signal's
handler_ cell, or none for the null pointer of a default-constructed
slot.  Distinct live signals have distinct cell addresses. -/
structure cancellation_slot where
  handler_ : Option Nat
deriving Repr, DecidableEq

/-- cancellation_slot(): the default constructor yields a disconnected
slot (null handler_). -/
def cancellation_slot.mkDefault : cancellation_slot := ⟨none⟩

/-- cancellation_signal::slot(): returns cancellation_slot(0, &handler_),
where `cellAddr` stands for the address &handler_ of this signal's
record cell. -/
def cancellation_signal.slot (cellAddr : Nat) : cancellation_slot :=
  ⟨some cellAddr⟩

/-- operator==(lhs, rhs): lhs.handler_ == rhs.handler_. -/
def cancellation_slot.beq (lhs rhs : cancellation_slot) : Bool :=
  lhs.handler_ == rhs.handler_

/-- operator!=(lhs, rhs): lhs.handler_ != rhs.handler_. -/
def cancellation_slot.bne (lhs rhs : cancellation_slot) : Bool :=
  lhs.handler_ != rhs.handler_

/-- cancellation_slot::is_connected(): handler_ != 0. -/
def cancellation_slot.is_connected (s : cancellation_slot) : Bool :=
  s.handler_.isSome

/-- cancellation_slot::has_handler(): handler_ != 0 && *handler_ != 0.
`st` is the signal whose cell the slot references (unused when the slot
is disconnected). -/
def cancellation_slot.has_handler (s : cancellation_slot)
    (st : cancellation_signal C H) : Bool :=
  s.handler_.isSome && st.handler_.isSome

/-- cancellation_slot::emplace(handler, args...): assert(handler_); if a
record is installed, surrender it (mem = (*handler_)->destroy();
*handler_ = 0); create the new record from the surrendered block; on
success install it and return a reference to its context (here: the
record itself).  The pointee signal's state is passed and returned
explicitly; on assert failure it is returned unchanged. -/
def cancellation_slot.emplace (s : cancellation_slot)
    (st : cancellation_signal C H) (reqSize : Nat) (allocOk ctorOk : Bool)
    (handler : H) (ctx : C) :
    cancellation_signal C H × Except EmplaceError (cancellation_handler C H) :=
  match s.handler_ with
  | none => (st, .error .assertFail)
  | some _ =>
    let memSt : (Nat × Nat) × cancellation_signal C H :=
      match st.handler_ with
      | some r => (r.destroy, { st with handler_ := none })
      | none => ((0, 0), st)
    match cancellation_handler.create memSt.2.heap memSt.1 reqSize
        allocOk ctorOk handler ctx with
    | (h2, .ok robj) => ({ heap := h2, handler_ := some robj }, .ok robj)
    | (h2, .error e) => ({ memSt.2 with heap := h2 }, .error e)

/-- cancellation_slot::clear(): if (handler_ != 0 && *handler_ != 0)
{ ::operator delete((*handler_)->destroy().first); *handler_ = 0; }.
A disconnected slot, or one whose signal has no record, is left
unchanged. -/
def cancellation_slot.clear (s : cancellation_slot)
    (st : cancellation_signal C H) : cancellation_signal C H :=
  match s.handler_ with
  | none => st
  | some _ =>
    match st.handler_ with
    | some r => { heap := st.heap.opDelete r.destroy.1, handler_ := none }
    | none => st

/-- Heap well-formedness: allocated addresses are distinct, nonzero and
below nextAddr; freed addresses are distinct and were allocated. -/
def Heap.wf (h : Heap) : Prop :=
  1 ≤ h.nextAddr ∧
  (h.allocs.map Prod.fst).Nodup ∧
  h.frees.Nodup ∧
  (∀ a ∈ h.frees, a ∈ h.allocs.map Prod.fst) ∧
  (∀ p ∈ h.allocs, 1 ≤ p.1 ∧ p.1 < h.nextAddr)

/-- The signal's reachable-state invariant: the heap is well formed,
every allocated block is either freed or the installed record's block
(allocation/free balance), and an installed record occupies a live block
whose recorded size is its allocation size, with size_ at least the
realization's own size. -/
def Inv (st : cancellation_signal C H) : Prop :=
  st.heap.wf ∧
  st.heap.allocs.length =
    st.heap.frees.length + (match st.handler_ with | some _ => 1 | none => 0) ∧
  (match st.handler_ with
   | some r =>
     (r.addr, r.size_) ∈ st.heap.allocs ∧ r.addr ∉ st.heap.frees ∧
     1 ≤ r.reqSize ∧ r.reqSize ≤ r.size_
   | none => True)

/-- In a well-formed heap, the next fresh address was never allocated. -/
theorem wf_nextAddr_not_alloc (h : Heap) (hwf : h.wf) :
    h.nextAddr ∉ h.allocs.map Prod.fst := by
  intro hmem
  obtain ⟨p, hp, hfst⟩ := List.mem_map.mp hmem
  have := (hwf.2.2.2.2 p hp).2
  omega

/-- In a well-formed heap, the next fresh address was never freed. -/
theorem wf_nextAddr_not_free (h : Heap) (hwf : h.wf) :
    h.nextAddr ∉ h.frees := by
  intro hmem
  exact wf_nextAddr_not_alloc h hwf (hwf.2.2.2.1 _ hmem)

/-- The reachable-state facts used throughout: an installed record has a
nonzero address below nextAddr, its block is not freed, and the heap is
one allocation ahead of the frees. -/
theorem Inv_installed_facts {C H : Type} {st : cancellation_signal C H}
    {r : cancellation_handler C H} (h : Inv st)
    (hr : st.handler_ = some r) :
    r.addr ≠ 0 ∧ r.addr ≠ st.heap.nextAddr ∧ r.addr ∉ st.heap.frees ∧
    1 ≤ st.heap.nextAddr ∧
    st.heap.allocs.length = st.heap.frees.length + 1 := by
  obtain ⟨hwf, hbal, hrec⟩ := h
  rw [hr] at hbal hrec
  simp only at hbal hrec
  obtain ⟨hmem, hnf, -, -⟩ := hrec
  have hb := hwf.2.2.2.2 _ hmem
  exact ⟨by omega, by omega, hnf, hwf.1, hbal⟩

/-- A fresh signal satisfies the invariant. -/
theorem Inv_init {C H : Type} : Inv (cancellation_signal.init (C := C) (H := H)) := by
  simp [Inv, cancellation_signal.init, Heap.empty, Heap.wf, List.Nodup]

/-- emit preserves the invariant (it does not change the state). -/
theorem Inv_emit {C H : Type} (st : cancellation_signal C H) (h : Inv st) :
    Inv st.emit.1 := by
  cases hr : st.handler_ <;> simp [cancellation_signal.emit, hr, h]

/-- clear preserves the invariant. -/
theorem Inv_clear {C H : Type} (s : cancellation_slot)
    (st : cancellation_signal C H) (h : Inv st) : Inv (s.clear st) := by
  cases hs : s.handler_ with
  | none => simpa [cancellation_slot.clear, hs] using h
  | some cell =>
    cases hr : st.handler_ with
    | none => simpa [cancellation_slot.clear, hs, hr] using h
    | some r =>
      obtain ⟨hwf, hbal, hrec⟩ := h
      rw [hr] at hbal hrec
      simp only at hbal hrec
      obtain ⟨hmem, hnf, -, -⟩ := hrec
      have hb := hwf.2.2.2.2 _ hmem
      have hnz : r.addr ≠ 0 := by omega
      simp only [cancellation_slot.clear, cancellation_handler.destroy,
        Heap.opDelete, hs, hr, if_neg hnz]
      refine ⟨⟨hwf.1, hwf.2.1, ?_, ?_, hwf.2.2.2.2⟩, ?_, trivial⟩
      · exact List.nodup_cons.mpr ⟨hnf, hwf.2.2.1⟩
      · intro a ha
        rcases List.mem_cons.mp ha with ha | ha
        · subst ha
          exact List.mem_map.mpr ⟨_, hmem, rfl⟩
        · exact hwf.2.2.2.1 a ha
      · simp only [List.length_cons]
        omega

/-- emplace preserves the invariant (for realizations of positive size,
as every C++ object type has). -/
theorem Inv_emplace {C H : Type} (s : cancellation_slot)
    (st : cancellation_signal C H) (reqSize : Nat) (aOk cOk : Bool)
    (hv : H) (cv : C) (hreq : 1 ≤ reqSize) (h : Inv st) :
    Inv (s.emplace st reqSize aOk cOk hv cv).1 := by
  cases hs : s.handler_ with
  | none => simpa [cancellation_slot.emplace, hs] using h
  | some cell =>
  obtain ⟨hwf, hbal, hrec⟩ := h
  have hnx := hwf.1
  have hnaA := wf_nextAddr_not_alloc st.heap hwf
  have hnaF := wf_nextAddr_not_free st.heap hwf
  cases hr : st.handler_ with
  | none =>
    rw [hr] at hbal
    simp only at hbal
    have hpos : (0 : Nat) < reqSize := by omega
    cases aOk with
    | false =>
      have hres : (s.emplace st reqSize false cOk hv cv).1
          = ⟨st.heap, none⟩ := by
        simp [cancellation_slot.emplace, cancellation_handler.create,
          Heap.opDelete, hs, hr, hpos]
      rw [hres]
      exact ⟨hwf, by simpa using hbal, trivial⟩
    | true =>
      cases cOk with
      | true =>
        have hres : (s.emplace st reqSize true true hv cv).1
            = ⟨⟨st.heap.nextAddr + 1,
                (st.heap.nextAddr, reqSize) :: st.heap.allocs,
                st.heap.frees⟩,
              some ⟨st.heap.nextAddr, reqSize, reqSize, hv, cv⟩⟩ := by
          simp [cancellation_slot.emplace, cancellation_handler.create,
            Heap.opDelete, Heap.opNew, hs, hr, hpos]
        rw [hres]
        simp only [Inv, Heap.wf, List.map_cons, List.length_cons]
        refine ⟨⟨by omega, ?_, hwf.2.2.1, ?_, ?_⟩, by omega, ?_, hnaF,
          hreq, Nat.le_refl _⟩
        · exact List.nodup_cons.mpr ⟨hnaA, hwf.2.1⟩
        · intro a ha
          exact List.mem_cons_of_mem _ (hwf.2.2.2.1 a ha)
        · intro p hp
          rcases List.mem_cons.mp hp with hp | hp
          · subst hp
            constructor <;> omega
          · have := hwf.2.2.2.2 p hp
            constructor <;> omega
        · exact List.mem_cons_self _ _
      | false =>
        have hnz : st.heap.nextAddr ≠ 0 := by omega
        have hres : (s.emplace st reqSize true false hv cv).1
            = ⟨⟨st.heap.nextAddr + 1,
                (st.heap.nextAddr, reqSize) :: st.heap.allocs,
                st.heap.nextAddr :: st.heap.frees⟩, none⟩ := by
          simp [cancellation_slot.emplace, cancellation_handler.create,
            Heap.opDelete, Heap.opNew, hs, hr, hpos, hnz]
        rw [hres]
        simp only [Inv, Heap.wf, List.map_cons, List.length_cons]
        refine ⟨⟨by omega, ?_, ?_, ?_, ?_⟩, by omega, trivial⟩
        · exact List.nodup_cons.mpr ⟨hnaA, hwf.2.1⟩
        · exact List.nodup_cons.mpr ⟨hnaF, hwf.2.2.1⟩
        · intro a ha
          rcases List.mem_cons.mp ha with ha | ha
          · subst ha
            exact List.mem_cons_self _ _
          · exact List.mem_cons_of_mem _ (hwf.2.2.2.1 a ha)
        · intro p hp
          rcases List.mem_cons.mp hp with hp | hp
          · subst hp
            constructor <;> omega
          · have := hwf.2.2.2.2 p hp
            constructor <;> omega
  | some r0 =>
    rw [hr] at hbal hrec
    simp only at hbal hrec
    obtain ⟨hmem, hnf, hreq0, hcap0⟩ := hrec
    have hb := hwf.2.2.2.2 _ hmem
    have hnz : r0.addr ≠ 0 := by omega
    have hmemF : r0.addr ∈ st.heap.allocs.map Prod.fst :=
      List.mem_map.mpr ⟨_, hmem, rfl⟩
    by_cases hgt : r0.size_ < reqSize
    · cases aOk with
      | false =>
        have hres : (s.emplace st reqSize false cOk hv cv).1
            = ⟨⟨st.heap.nextAddr, st.heap.allocs, r0.addr :: st.heap.frees⟩,
              none⟩ := by
          simp [cancellation_slot.emplace, cancellation_handler.create,
            cancellation_handler.destroy, Heap.opDelete, hs, hr, hgt, hnz]
        rw [hres]
        simp only [Inv, Heap.wf, List.length_cons]
        refine ⟨⟨hwf.1, hwf.2.1, ?_, ?_, hwf.2.2.2.2⟩, by omega, trivial⟩
        · exact List.nodup_cons.mpr ⟨hnf, hwf.2.2.1⟩
        · intro a ha
          rcases List.mem_cons.mp ha with ha | ha
          · subst ha
            exact hmemF
          · exact hwf.2.2.2.1 a ha
      | true =>
        cases cOk with
        | true =>
          have hres : (s.emplace st reqSize true true hv cv).1
              = ⟨⟨st.heap.nextAddr + 1,
                  (st.heap.nextAddr, reqSize) :: st.heap.allocs,
                  r0.addr :: st.heap.frees⟩,
                some ⟨st.heap.nextAddr, reqSize, reqSize, hv, cv⟩⟩ := by
            simp [cancellation_slot.emplace, cancellation_handler.create,
              cancellation_handler.destroy, Heap.opDelete, Heap.opNew,
              hs, hr, hgt, hnz]
          rw [hres]
          simp only [Inv, Heap.wf, List.map_cons, List.length_cons]
          refine ⟨⟨by omega, ?_, ?_, ?_, ?_⟩, by omega, ?_, ?_, hreq,
            Nat.le_refl _⟩
          · exact List.nodup_cons.mpr ⟨hnaA, hwf.2.1⟩
          · exact List.nodup_cons.mpr ⟨hnf, hwf.2.2.1⟩
          · intro a ha
            rcases List.mem_cons.mp ha with ha | ha
            · subst ha
              exact List.mem_cons_of_mem _ hmemF
            · exact List.mem_cons_of_mem _ (hwf.2.2.2.1 a ha)
          · intro p hp
            rcases List.mem_cons.mp hp with hp | hp
            · subst hp
              constructor <;> omega
            · have := hwf.2.2.2.2 p hp
              constructor <;> omega
          · exact List.mem_cons_self _ _
          · intro hmem2
            rcases List.mem_cons.mp hmem2 with he | he
            · omega
            · exact hnaF he
        | false =>
          have hnz2 : st.heap.nextAddr ≠ 0 := by omega
          have hres : (s.emplace st reqSize true false hv cv).1
              = ⟨⟨st.heap.nextAddr + 1,
                  (st.heap.nextAddr, reqSize) :: st.heap.allocs,
                  st.heap.nextAddr :: r0.addr :: st.heap.frees⟩, none⟩ := by
            simp [cancellation_slot.emplace, cancellation_handler.create,
              cancellation_handler.destroy, Heap.opDelete, Heap.opNew,
              hs, hr, hgt, hnz, hnz2]
          rw [hres]
          simp only [Inv, Heap.wf, List.map_cons, List.length_cons]
          refine ⟨⟨by omega, ?_, ?_, ?_, ?_⟩, by omega, trivial⟩
          · exact List.nodup_cons.mpr ⟨hnaA, hwf.2.1⟩
          · refine List.nodup_cons.mpr
              ⟨?_, List.nodup_cons.mpr ⟨hnf, hwf.2.2.1⟩⟩
            intro hmem2
            rcases List.mem_cons.mp hmem2 with he | he
            · omega
            · exact hnaF he
          · intro a ha
            rcases List.mem_cons.mp ha with ha | ha
            · subst ha
              exact List.mem_cons_self _ _
            rcases List.mem_cons.mp ha with ha | ha
            · subst ha
              exact List.mem_cons_of_mem _ hmemF
            · exact List.mem_cons_of_mem _ (hwf.2.2.2.1 a ha)
          · intro p hp
            rcases List.mem_cons.mp hp with hp | hp
            · subst hp
              constructor <;> omega
            · have := hwf.2.2.2.2 p hp
              constructor <;> omega
    · cases cOk with
      | true =>
        have hres : (s.emplace st reqSize aOk true hv cv).1
            = ⟨st.heap, some ⟨r0.addr, r0.size_, reqSize, hv, cv⟩⟩ := by
          simp [cancellation_slot.emplace, cancellation_handler.create,
            cancellation_handler.destroy, hs, hr, hgt]
        rw [hres]
        simp only [Inv, Heap.wf]
        exact ⟨⟨hwf.1, hwf.2.1, hwf.2.2.1, hwf.2.2.2.1, hwf.2.2.2.2⟩,
          by omega, hmem, hnf, hreq, Nat.le_of_not_lt hgt⟩
      | false =>
        have hres : (s.emplace st reqSize aOk false hv cv).1
            = ⟨⟨st.heap.nextAddr, st.heap.allocs, r0.addr :: st.heap.frees⟩,
              none⟩ := by
          simp [cancellation_slot.emplace, cancellation_handler.create,
            cancellation_handler.destroy, Heap.opDelete, hs, hr, hgt, hnz]
        rw [hres]
        simp only [Inv, Heap.wf, List.length_cons]
        refine ⟨⟨hwf.1, hwf.2.1, ?_, ?_, hwf.2.2.2.2⟩, by omega, trivial⟩
        · exact List.nodup_cons.mpr ⟨hnf, hwf.2.2.1⟩
        · intro a ha
          rcases List.mem_cons.mp ha with ha | ha
          · subst ha
            exact hmemF
          · exact hwf.2.2.2.1 a ha

/-- Claim C3: emit() on a signal with no installed handler record is a
no-op: it invokes no handler and leaves the signal's state unchanged
(and performs no allocation, the heap being part of the state). -/
theorem emit_no_handler_noop {C H : Type} (st : cancellation_signal C H)
    (h : st.handler_ = none) : st.emit = (st, []) := by
  simp [cancellation_signal.emit, h]

/-- Witness for C3 at a concrete input: the freshly constructed signal
has no handler, and emit on it is a no-op. -/
theorem emit_no_handler_noop_witness :
    (cancellation_signal.init (C := Nat) (H := Nat)).emit
      = (cancellation_signal.init, []) :=
  emit_no_handler_noop cancellation_signal.init rfl

/-- Helper: a successful create stores the supplied handler and context
values in the new record, records the realization's size, and never
records an allocated size below it. -/
theorem create_ok_fields {C H : Type} {h h' : Heap} {mem : Nat × Nat}
    {reqSize : Nat} {aOk cOk : Bool} {hv : H} {cv : C}
    {r : cancellation_handler C H}
    (hc : cancellation_handler.create h mem reqSize aOk cOk hv cv
      = (h', .ok r)) :
    r.handler_ = hv ∧ r.context_ = cv ∧ r.reqSize = reqSize ∧
      r.reqSize ≤ r.size_ := by
  unfold cancellation_handler.create at hc
  split at hc
  · split at hc
    · split at hc
      · simp only [Prod.mk.injEq, Except.ok.injEq] at hc
        rw [← hc.2]
        exact ⟨rfl, rfl, rfl, Nat.le_refl _⟩
      · simp at hc
    · simp at hc
  · split at hc
    · simp only [Prod.mk.injEq, Except.ok.injEq] at hc
      rw [← hc.2]
      refine ⟨rfl, rfl, rfl, ?_⟩
      show reqSize ≤ mem.2
      omega
    · simp at hc

/-- Claim C1: after a successful emplace returning (a reference to) the
installed record r, a single emit() invokes the supplied handler exactly
once, and the context passed by reference to it is the context of the
very record r that emplace returned. -/
theorem emplace_then_emit_invokes_handler_once {C H : Type}
    (s : cancellation_slot) (st st' : cancellation_signal C H)
    (reqSize : Nat) (aOk cOk : Bool) (hv : H) (cv : C)
    (r : cancellation_handler C H)
    (hemp : s.emplace st reqSize aOk cOk hv cv = (st', .ok r)) :
    st'.handler_ = some r ∧ r.handler_ = hv ∧
      st'.emit = (st', [(hv, r.context_)]) := by
  unfold cancellation_slot.emplace at hemp
  cases hs : s.handler_ with
  | none => simp [hs] at hemp
  | some cell =>
    cases hrec : st.handler_ with
    | none =>
      simp only [hs, hrec] at hemp
      rcases hcr : cancellation_handler.create st.heap (0, 0) reqSize
          aOk cOk hv cv with ⟨h2, res⟩
      rw [hcr] at hemp
      cases res with
      | error e => simp at hemp
      | ok robj =>
        simp only [Prod.mk.injEq, Except.ok.injEq] at hemp
        obtain ⟨hst, hr⟩ := hemp
        obtain ⟨hhv, -, -, -⟩ := create_ok_fields hcr
        subst hr
        rw [← hst]
        simp [cancellation_signal.emit, cancellation_handler.call, hhv]
    | some r0 =>
      simp only [hs, hrec] at hemp
      rcases hcr : cancellation_handler.create st.heap r0.destroy reqSize
          aOk cOk hv cv with ⟨h2, res⟩
      rw [hcr] at hemp
      cases res with
      | error e => simp at hemp
      | ok robj =>
        simp only [Prod.mk.injEq, Except.ok.injEq] at hemp
        obtain ⟨hst, hr⟩ := hemp
        obtain ⟨hhv, -, -, -⟩ := create_ok_fields hcr
        subst hr
        rw [← hst]
        simp [cancellation_signal.emit, cancellation_handler.call, hhv]

/-- Witness for C1 at a concrete input: a first emplace on a connected
slot over a fresh signal installs the record at address 1, and emit
invokes the handler once with that record's context. -/
theorem emplace_then_emit_invokes_handler_once_witness :
    ((⟨⟨2, [(1, 3)], []⟩, some ⟨1, 3, 3, 5, 9⟩⟩ :
        cancellation_signal Nat Nat).handler_ = some ⟨1, 3, 3, 5, 9⟩) ∧
    ((⟨1, 3, 3, 5, 9⟩ : cancellation_handler Nat Nat).handler_ = 5) ∧
    ((⟨⟨2, [(1, 3)], []⟩, some ⟨1, 3, 3, 5, 9⟩⟩ :
        cancellation_signal Nat Nat).emit
      = (⟨⟨2, [(1, 3)], []⟩, some ⟨1, 3, 3, 5, 9⟩⟩, [(5, 9)])) :=
  emplace_then_emit_invokes_handler_once (cancellation_slot.mk (some 4))
    cancellation_signal.init _ 3 true true 5 9 _ rfl

/-- Claim C9: a record built by create records the realization's own
size in reqSize and an allocated size size_ at least as large; destroy
(surrender) returns the block's full recorded capacity (addr, size_).
When the candidate block is reused (realization fits), size_ is the
candidate block's full original capacity — not merely the realization's
own size — and the heap is untouched; when it does not fit, size_ is
exactly the fresh allocation's size. -/
theorem record_capacity_invariant {C H : Type} {h h' : Heap}
    {mem : Nat × Nat} {reqSize : Nat} {aOk cOk : Bool} {hv : H} {cv : C}
    {r : cancellation_handler C H}
    (hc : cancellation_handler.create h mem reqSize aOk cOk hv cv
      = (h', .ok r)) :
    r.reqSize = reqSize ∧ r.reqSize ≤ r.size_ ∧
      r.destroy = (r.addr, r.size_) ∧
      (reqSize ≤ mem.2 → r.size_ = mem.2 ∧ r.addr = mem.1 ∧ h' = h) ∧
      (mem.2 < reqSize → r.size_ = reqSize) := by
  unfold cancellation_handler.create at hc
  split at hc
  case isTrue hgt =>
    split at hc
    · split at hc
      · simp only [Prod.mk.injEq, Except.ok.injEq] at hc
        rw [← hc.2]
        exact ⟨rfl, Nat.le_refl _, rfl, fun hle => absurd hgt (by omega),
          fun _ => rfl⟩
      · simp at hc
    · simp at hc
  case isFalse hle =>
    split at hc
    · simp only [Prod.mk.injEq, Except.ok.injEq] at hc
      rw [← hc.2]
      refine ⟨rfl, ?_, rfl, fun _ => ⟨rfl, rfl, hc.1.symm⟩, ?_⟩
      · show reqSize ≤ mem.2
        omega
      · intro hlt
        exact absurd hlt (by omega)
    · simp at hc

/-- Witness for C9 at a concrete input: a 4-byte realization constructed
into a surrendered 8-byte block keeps the full 8-byte capacity and
surrenders it again. -/
theorem record_capacity_invariant_witness :
    ((⟨1, 8, 4, 5, 9⟩ : cancellation_handler Nat Nat).reqSize = 4) ∧
    ((⟨1, 8, 4, 5, 9⟩ : cancellation_handler Nat Nat).reqSize ≤
      (⟨1, 8, 4, 5, 9⟩ : cancellation_handler Nat Nat).size_) ∧
    ((⟨1, 8, 4, 5, 9⟩ : cancellation_handler Nat Nat).destroy = (1, 8)) ∧
    (4 ≤ 8 → (8 : Nat) = 8 ∧ (1 : Nat) = 1 ∧
      (⟨5, [(1, 8)], []⟩ : Heap) = ⟨5, [(1, 8)], []⟩) ∧
    ((8 : Nat) < 4 → (8 : Nat) = 4) := by
  have h := @record_capacity_invariant Nat Nat ⟨5, [(1, 8)], []⟩
    ⟨5, [(1, 8)], []⟩ (1, 8) 4 true true 5 9 ⟨1, 8, 4, 5, 9⟩ rfl
  exact ⟨h.1, h.2.1, h.2.2.1, fun hx => h.2.2.2.1 hx, fun hx => h.2.2.2.2 hx⟩

/-- Counterexample to claim C5 as stated: clear() on a default-constructed
(disconnected) slot is a silent no-op — the source guards clear() with
handler_ != 0 and has no assertion there, so the precondition-violation
path is not triggered (the state, heap included, is returned unchanged
and no error is signalled). -/
theorem clear_disconnected_silent_noop_cex :
    cancellation_slot.mkDefault.clear
      (cancellation_signal.init (C := Nat) (H := Nat))
      = cancellation_signal.init := rfl

/-- Claim C5 (amended): emplace on a default-constructed (disconnected)
slot triggers the precondition-violation path (assert(handler_)) and is
never a silent no-op; clear on a disconnected slot, by contrast, is a
silent no-op that leaves the signal state unchanged. -/
theorem disconnected_slot_emplace_asserts_clear_noop {C H : Type} :
    (∀ (st : cancellation_signal C H) (reqSize : Nat) (aOk cOk : Bool)
      (hv : H) (cv : C),
      cancellation_slot.mkDefault.emplace st reqSize aOk cOk hv cv
        = (st, .error .assertFail)) ∧
    (∀ st : cancellation_signal C H,
      cancellation_slot.mkDefault.clear st = st) :=
  ⟨fun _ _ _ _ _ _ => rfl, fun _ => rfl⟩

/-- Claim C6: after clear() on a connected slot the slot is still
connected, has_handler() is false, a subsequent emit() is a no-op, clear
is idempotent, and clear on a slot whose signal has no installed record
is itself a no-op. -/
theorem clear_connected_postconditions {C H : Type} (s : cancellation_slot)
    (st : cancellation_signal C H) (cell : Nat)
    (hs : s.handler_ = some cell) :
    s.is_connected = true ∧
    s.has_handler (s.clear st) = false ∧
    (s.clear st).emit = (s.clear st, []) ∧
    s.clear (s.clear st) = s.clear st ∧
    (st.handler_ = none → s.clear st = st) := by
  cases hrec : st.handler_ <;>
    simp [cancellation_slot.is_connected, cancellation_slot.has_handler,
      cancellation_slot.clear, cancellation_signal.emit, hs, hrec]

/-- Witness for C6 at a concrete input: a connected slot over a signal
with an installed record. -/
theorem clear_connected_postconditions_witness :
    (cancellation_slot.mk (some 7)).is_connected = true ∧
    (cancellation_slot.mk (some 7)).has_handler
      ((cancellation_slot.mk (some 7)).clear
        (⟨⟨2, [(1, 4)], []⟩, some ⟨1, 4, 4, 5, 9⟩⟩ :
          cancellation_signal Nat Nat)) = false ∧
    ((cancellation_slot.mk (some 7)).clear
      (⟨⟨2, [(1, 4)], []⟩, some ⟨1, 4, 4, 5, 9⟩⟩ :
        cancellation_signal Nat Nat)).emit
      = ((cancellation_slot.mk (some 7)).clear
          (⟨⟨2, [(1, 4)], []⟩, some ⟨1, 4, 4, 5, 9⟩⟩ :
            cancellation_signal Nat Nat), []) ∧
    (cancellation_slot.mk (some 7)).clear
      ((cancellation_slot.mk (some 7)).clear
        (⟨⟨2, [(1, 4)], []⟩, some ⟨1, 4, 4, 5, 9⟩⟩ :
          cancellation_signal Nat Nat))
      = (cancellation_slot.mk (some 7)).clear
          (⟨⟨2, [(1, 4)], []⟩, some ⟨1, 4, 4, 5, 9⟩⟩ :
            cancellation_signal Nat Nat) ∧
    ((⟨⟨2, [(1, 4)], []⟩, some ⟨1, 4, 4, 5, 9⟩⟩ :
        cancellation_signal Nat Nat).handler_ = none →
      (cancellation_slot.mk (some 7)).clear
        (⟨⟨2, [(1, 4)], []⟩, some ⟨1, 4, 4, 5, 9⟩⟩ :
          cancellation_signal Nat Nat)
        = ⟨⟨2, [(1, 4)], []⟩, some ⟨1, 4, 4, 5, 9⟩⟩) :=
  clear_connected_postconditions (cancellation_slot.mk (some 7)) _ 7 rfl

/-- Claim C2: an emplace on a connected slot whose new realization fits
in the installed record's block (required size at most the stored
capacity size_) performs zero allocator calls — the heap is unchanged;
an emplace whose required size exceeds that capacity frees the old block
exactly once and allocates exactly one fresh block sized exactly to the
new realization. -/
theorem emplace_alloc_discipline {C H : Type} (s : cancellation_slot)
    (st : cancellation_signal C H) (cell : Nat)
    (r0 : cancellation_handler C H) (reqSize : Nat) (aOk : Bool)
    (hv : H) (cv : C)
    (hs : s.handler_ = some cell) (hr : st.handler_ = some r0)
    (hnf : r0.addr ∉ st.heap.frees) (hnz : r0.addr ≠ 0) :
    (reqSize ≤ r0.size_ →
      (s.emplace st reqSize aOk true hv cv).1.heap = st.heap) ∧
    (r0.size_ < reqSize →
      (s.emplace st reqSize true true hv cv).1.heap.allocs
        = (st.heap.nextAddr, reqSize) :: st.heap.allocs ∧
      (s.emplace st reqSize true true hv cv).1.heap.frees
        = r0.addr :: st.heap.frees ∧
      (s.emplace st reqSize true true hv cv).1.heap.frees.count r0.addr
        = 1) := by
  constructor
  · intro hfit
    have hc : ¬ (r0.size_ < reqSize) := by omega
    simp [cancellation_slot.emplace, cancellation_handler.create,
      cancellation_handler.destroy, hs, hr, hc]
  · intro hgt
    simp [cancellation_slot.emplace, cancellation_handler.create,
      cancellation_handler.destroy, Heap.opNew, Heap.opDelete,
      hs, hr, hgt, hnz, List.count_cons, List.count_eq_zero.mpr hnf]

/-- Witness for C2 at a concrete input: replacing an 8-byte record by a
9-byte realization frees block 1 once and allocates exactly one fresh
9-byte block. -/
theorem emplace_alloc_discipline_witness :
    ((9 : Nat) ≤ 8 →
      ((cancellation_slot.mk (some 3)).emplace
        (⟨⟨2, [(1, 8)], []⟩, some ⟨1, 8, 8, 5, 9⟩⟩ :
          cancellation_signal Nat Nat) 9 true true 5 9).1.heap
        = ⟨2, [(1, 8)], []⟩) ∧
    ((8 : Nat) < 9 →
      ((cancellation_slot.mk (some 3)).emplace
        (⟨⟨2, [(1, 8)], []⟩, some ⟨1, 8, 8, 5, 9⟩⟩ :
          cancellation_signal Nat Nat) 9 true true 5 9).1.heap.allocs
        = (2, 9) :: [(1, 8)] ∧
      ((cancellation_slot.mk (some 3)).emplace
        (⟨⟨2, [(1, 8)], []⟩, some ⟨1, 8, 8, 5, 9⟩⟩ :
          cancellation_signal Nat Nat) 9 true true 5 9).1.heap.frees
        = 1 :: [] ∧
      ((cancellation_slot.mk (some 3)).emplace
        (⟨⟨2, [(1, 8)], []⟩, some ⟨1, 8, 8, 5, 9⟩⟩ :
          cancellation_signal Nat Nat) 9 true true 5 9).1.heap.frees.count 1
        = 1) :=
  emplace_alloc_discipline (cancellation_slot.mk (some 3))
    (⟨⟨2, [(1, 8)], []⟩, some ⟨1, 8, 8, 5, 9⟩⟩ : cancellation_signal Nat Nat)
    3 ⟨1, 8, 8, 5, 9⟩ 9 true 5 9 rfl rfl (by decide) (by decide)

/-- Claim C4: if an emplace on a connected slot fails (allocation
failure or handler/context construction failure), the failure
propagates, the slot is left with no handler installed (a previously
installed record is already destroyed and does not reappear), no block
is leaked (every allocated block has been freed), and the old block is
freed exactly once. -/
theorem emplace_failure_no_leak {C H : Type} (s : cancellation_slot)
    (st : cancellation_signal C H) (reqSize : Nat) (aOk cOk : Bool)
    (hv : H) (cv : C) (e : EmplaceError) (cell : Nat)
    (hs : s.handler_ = some cell)
    (hnx : 1 ≤ st.heap.nextAddr)
    (hbal : st.heap.allocs.length = st.heap.frees.length +
      (match st.handler_ with | some _ => 1 | none => 0))
    (hrec : ∀ r0, st.handler_ = some r0 →
      r0.addr ∉ st.heap.frees ∧ r0.addr ≠ 0 ∧ r0.addr ≠ st.heap.nextAddr)
    (hreq : 1 ≤ reqSize)
    (hfail : (s.emplace st reqSize aOk cOk hv cv).2 = .error e) :
    (s.emplace st reqSize aOk cOk hv cv).1.handler_ = none ∧
    (s.emplace st reqSize aOk cOk hv cv).1.heap.allocs.length
      = (s.emplace st reqSize aOk cOk hv cv).1.heap.frees.length ∧
    (∀ r0, st.handler_ = some r0 →
      (s.emplace st reqSize aOk cOk hv cv).1.heap.frees.count r0.addr
        = 1) := by
  cases hr : st.handler_ with
  | none =>
    rw [hr] at hbal
    simp only at hbal
    cases aOk with
    | false =>
      simp [cancellation_slot.emplace, cancellation_handler.create,
        Heap.opDelete, hs, hr, Nat.lt_of_lt_of_le Nat.zero_lt_one hreq,
        hbal]
    | true =>
      cases cOk with
      | true =>
        exfalso
        simp [cancellation_slot.emplace, cancellation_handler.create,
          Heap.opDelete, hs, hr,
          Nat.lt_of_lt_of_le Nat.zero_lt_one hreq] at hfail
      | false =>
        have hnz : st.heap.nextAddr ≠ 0 := by omega
        simp [cancellation_slot.emplace, cancellation_handler.create,
          Heap.opDelete, Heap.opNew, hs, hr, hnz,
          Nat.lt_of_lt_of_le Nat.zero_lt_one hreq, hbal]
  | some r0 =>
    obtain ⟨hnf, hnz, hnn⟩ := hrec r0 hr
    rw [hr] at hbal
    simp only at hbal
    by_cases hgt : r0.size_ < reqSize
    · cases aOk with
      | false =>
        refine ⟨?_, ?_, ?_⟩ <;>
          simp [cancellation_slot.emplace, cancellation_handler.create,
            cancellation_handler.destroy, Heap.opDelete, hs, hr, hgt, hnz,
            hbal, List.count_cons, List.count_eq_zero.mpr hnf]
      | true =>
        cases cOk with
        | true =>
          exfalso
          simp [cancellation_slot.emplace, cancellation_handler.create,
            cancellation_handler.destroy, Heap.opDelete, Heap.opNew,
            hs, hr, hgt, hnz] at hfail
        | false =>
          have hnz2 : st.heap.nextAddr ≠ 0 := by omega
          refine ⟨?_, ?_, ?_⟩ <;>
            simp [cancellation_slot.emplace, cancellation_handler.create,
              cancellation_handler.destroy, Heap.opDelete, Heap.opNew,
              hs, hr, hgt, hnz, hnz2, hbal, List.count_cons,
              List.count_eq_zero.mpr hnf, Ne.symm hnn]
    · cases cOk with
      | true =>
        exfalso
        simp [cancellation_slot.emplace, cancellation_handler.create,
          cancellation_handler.destroy, hs, hr, hgt] at hfail
      | false =>
        refine ⟨?_, ?_, ?_⟩ <;>
          simp [cancellation_slot.emplace, cancellation_handler.create,
            cancellation_handler.destroy, Heap.opDelete, hs, hr, hgt, hnz,
            hbal, List.count_cons, List.count_eq_zero.mpr hnf]

/-- Witness for C4 at a concrete input: a failing 9-byte construction
over an installed 8-byte record frees both the old block and the fresh
one, leaving no handler and no leak. -/
theorem emplace_failure_no_leak_witness :
    ((cancellation_slot.mk (some 3)).emplace
      (⟨⟨2, [(1, 8)], []⟩, some ⟨1, 8, 8, 5, 9⟩⟩ :
        cancellation_signal Nat Nat) 9 true false 5 9).1.handler_ = none ∧
    ((cancellation_slot.mk (some 3)).emplace
      (⟨⟨2, [(1, 8)], []⟩, some ⟨1, 8, 8, 5, 9⟩⟩ :
        cancellation_signal Nat Nat) 9 true false 5 9).1.heap.allocs.length
      = ((cancellation_slot.mk (some 3)).emplace
          (⟨⟨2, [(1, 8)], []⟩, some ⟨1, 8, 8, 5, 9⟩⟩ :
            cancellation_signal Nat Nat) 9 true false 5 9).1.heap.frees.length ∧
    (∀ r0 : cancellation_handler Nat Nat,
      (⟨⟨2, [(1, 8)], []⟩, some ⟨1, 8, 8, 5, 9⟩⟩ :
        cancellation_signal Nat Nat).handler_ = some r0 →
      ((cancellation_slot.mk (some 3)).emplace
        (⟨⟨2, [(1, 8)], []⟩, some ⟨1, 8, 8, 5, 9⟩⟩ :
          cancellation_signal Nat Nat) 9 true false 5 9).1.heap.frees.count
        r0.addr = 1) :=
  emplace_failure_no_leak (cancellation_slot.mk (some 3))
    (⟨⟨2, [(1, 8)], []⟩, some ⟨1, 8, 8, 5, 9⟩⟩ : cancellation_signal Nat Nat)
    9 true false 5 9 .ctorFail 3 rfl (by decide) (by decide)
    (fun r0 h => by injection h with h2; subst h2; exact (by decide))
    (by decide) rfl

/-- Claim C7: destroying a signal with an installed record frees the
record's backing block exactly once, and afterwards the total allocation
count equals the total free count. -/
theorem signal_dtor_frees_exactly_once {C H : Type}
    (st : cancellation_signal C H) (r : cancellation_handler C H)
    (hr : st.handler_ = some r) (hnz : r.addr ≠ 0)
    (hnf : r.addr ∉ st.heap.frees)
    (hbal : st.heap.allocs.length = st.heap.frees.length + 1) :
    st.dtor.frees.count r.addr = 1 ∧
    st.dtor.allocs.length = st.dtor.frees.length := by
  simp [cancellation_signal.dtor, cancellation_handler.destroy,
    Heap.opDelete, hr, hnz, hbal, List.count_cons,
    List.count_eq_zero.mpr hnf]

/-- Witness for C7 at a concrete input: destroying a signal holding the
record at address 1 frees address 1 once and balances the heap. -/
theorem signal_dtor_frees_exactly_once_witness :
    (⟨⟨2, [(1, 8)], []⟩, some ⟨1, 8, 8, 5, 9⟩⟩ :
      cancellation_signal Nat Nat).dtor.frees.count 1 = 1 ∧
    (⟨⟨2, [(1, 8)], []⟩, some ⟨1, 8, 8, 5, 9⟩⟩ :
      cancellation_signal Nat Nat).dtor.allocs.length
      = (⟨⟨2, [(1, 8)], []⟩, some ⟨1, 8, 8, 5, 9⟩⟩ :
          cancellation_signal Nat Nat).dtor.frees.length :=
  signal_dtor_frees_exactly_once
    (⟨⟨2, [(1, 8)], []⟩, some ⟨1, 8, 8, 5, 9⟩⟩ : cancellation_signal Nat Nat)
    ⟨1, 8, 8, 5, 9⟩ rfl (by decide) (by decide) (by decide)

/-- Claim C8: slots compare equal exactly when they reference the same
storage location: any two slots obtained from the same signal's slot()
call compare equal (and not unequal), and slots obtained from two
distinct signals (distinct handler_ cell addresses) compare not-equal. -/
theorem slot_eq_iff_same_signal (a b : Nat) (hab : a ≠ b) :
    (cancellation_signal.slot a).beq (cancellation_signal.slot a) = true ∧
    (cancellation_signal.slot a).bne (cancellation_signal.slot a) = false ∧
    (cancellation_signal.slot a).beq (cancellation_signal.slot b) = false ∧
    (cancellation_signal.slot a).bne (cancellation_signal.slot b) = true := by
  simp [cancellation_signal.slot, cancellation_slot.beq,
    cancellation_slot.bne, hab]

/-- Witness for C8 at concrete distinct signals. -/
theorem slot_eq_iff_same_signal_witness :
    (cancellation_signal.slot 1).beq (cancellation_signal.slot 1) = true ∧
    (cancellation_signal.slot 1).bne (cancellation_signal.slot 1) = false ∧
    (cancellation_signal.slot 1).beq (cancellation_signal.slot 2) = false ∧
    (cancellation_signal.slot 1).bne (cancellation_signal.slot 2) = true :=
  slot_eq_iff_same_signal 1 2 (by decide)

/-- Claim C10: two default-constructed (disconnected) slots compare equal
(and not unequal), both holding the null cell pointer; and a
default-constructed slot compares not-equal to every slot obtained from
a signal's slot() call, whose cell pointer is a real address. -/
theorem default_slots_equal_and_ne_signal_slots (sid : Nat) :
    cancellation_slot.mkDefault.beq cancellation_slot.mkDefault = true ∧
    cancellation_slot.mkDefault.bne cancellation_slot.mkDefault = false ∧
    cancellation_slot.mkDefault.beq (cancellation_signal.slot sid) = false ∧
    (cancellation_signal.slot sid).beq cancellation_slot.mkDefault = false ∧
    cancellation_slot.mkDefault.bne (cancellation_signal.slot sid) = true := by
  simp [cancellation_slot.mkDefault, cancellation_signal.slot,
    cancellation_slot.beq, cancellation_slot.bne]

end Asio
